import Mathlib

/-!
Shallow embedding of the QR-Scan-Media-Uploader Flask application
(src/app.py) and proofs about its route handlers.

The relational store is modelled as in-memory lists of rows (one list per
table), threaded through each handler.  External collaborators (the
Cloudinary remote object store, the outbound HTTP fetch used for ZIP
assembly, and the password-hashing primitive) are modelled as explicit
parameters: each handler receives the outcome of the external call it
would perform.  Side effects that the claims talk about (remote destroy
and upload invocations, local row deletion, transaction commit) are
recorded in an event trace carried alongside the returned state.
-/

namespace MediaApp

/-- Acknowledgement returned by the remote object store destroy operation
(collaborator interface per the spec: destroy(id) -> ok/error). -/
inductive Ack where
  | ok : Ack
  | err : Ack
  deriving Repr, DecidableEq

/-- Result dictionary returned by a successful remote upload
(cloudinary.uploader.upload): a public URL and an opaque identifier. -/
structure UploadResult where
  secure_url : String
  public_id : String
  deriving Repr, DecidableEq

/-- An incoming multipart file (werkzeug FileStorage): name, raw bytes and
the reported MIME type.  The byte length read by the handler is the length
of content. -/
structure UploadedFile where
  filename : String
  content : List Nat
  mimetype : String
  deriving Repr, DecidableEq

/-- A row of the User table (model User in src/app.py). -/
structure User where
  id : Nat
  username : String
  password : String
  deriving Repr, DecidableEq

/-- A row of the Media table (model Media in src/app.py). -/
structure Media where
  id : Nat
  filename : String
  url : String
  public_id : String
  is_visible : Bool
  uploaded_by : Option String
  description : Option String
  size : Option Nat
  mimetype : Option String
  deriving Repr, DecidableEq

/-- The relational store: the two tables, rows in insertion order. -/
structure DB where
  users : List User
  medias : List Media
  deriving Repr, DecidableEq

/-- Externally visible side effects of a handler, in the order the code
performs them. -/
inductive Event where
  | remoteUpload : Event
  | destroyRemote : String → Event
  | deleteLocal : Nat → Event
  | commit : Event
  deriving Repr, DecidableEq

/-- The HTTP response a handler returns. -/
inductive Response where
  | redirect : String → Response
  | render : String → Response
  | json : List (String × String) → Response
  | sendFile : String → List (String × List Nat) → Response
  | serverError : Response
  deriving Repr, DecidableEq

/-- Everything a handler produces: the new store, the response, the flashed
messages, the event trace, and the session user set by login_user. -/
structure HandlerResult where
  db : DB
  response : Response
  flashes : List String := []
  events : List Event := []
  sessionUser : Option User := none
  deriving Repr, DecidableEq

/-- Modelled from the spec: the password-hashing primitive
(werkzeug generate_password_hash, an external collaborator whose choice the
spec leaves out of scope).  Specified only as hash/verify with hashed,
never-plaintext storage; modelled as an injective tagging function. -/
def generate_password_hash (p : String) : String := "hash$" ++ p

/-- Modelled from the spec: the matching verifier
(werkzeug check_password_hash): accepts exactly the stored hash of the
submitted password. -/
def check_password_hash (hash p : String) : Bool := hash == generate_password_hash p

/-- setup route (POST branch): reject empty fields, delete an existing user
of the same name, insert the freshly hashed credentials, redirect to login. -/
def setup (username password : String) (nextId : Nat) (db : DB) : HandlerResult :=
  if username = "" ∨ password = "" then
    { db := db, response := .render "setup.html",
      flashes := ["Username and password cannot be empty."] }
  else
    let db1 :=
      match db.users.find? (fun u => u.username == username) with
      | none => db
      | some _ => { db with users := db.users.eraseP (fun u => u.username == username) }
    let admin : User := { id := nextId, username := username,
                          password := generate_password_hash password }
    { db := { db1 with users := db1.users ++ [admin] },
      response := .redirect "login",
      flashes := ["Admin " ++ username ++ " created! You can now log in."],
      events := [.commit] }

/-- register route (POST branch): reject empty fields or a taken username
with a redirect back to the form, otherwise insert the new user and
redirect to login. -/
def register (username password : String) (nextId : Nat) (db : DB) : HandlerResult :=
  if username = "" ∨ password = "" then
    { db := db, response := .redirect "register",
      flashes := ["Username and password cannot be empty."] }
  else if (db.users.find? (fun u => u.username == username)).isSome then
    { db := db, response := .redirect "register",
      flashes := ["That username is already taken."] }
  else
    let new_user : User := { id := nextId, username := username,
                             password := generate_password_hash password }
    { db := { db with users := db.users ++ [new_user] },
      response := .redirect "login",
      flashes := ["User " ++ username ++ " created successfully. You can now log in."],
      events := [.commit] }

/-- login route (POST branch): redirect to setup when no user exists at
all; otherwise look the username up and check the submitted password
against the stored hash; on success establish the session and redirect to
manage, on failure flash and re-render the form. -/
def login (username password : String) (db : DB) : HandlerResult :=
  if db.users.head?.isNone then
    { db := db, response := .redirect "setup" }
  else
    match db.users.find? (fun u => u.username == username) with
    | some user =>
        if check_password_hash user.password password then
          { db := db, response := .redirect "manage", sessionUser := some user }
        else
          { db := db, response := .render "login.html", flashes := ["Invalid credentials"] }
    | none =>
        { db := db, response := .render "login.html", flashes := ["Invalid credentials"] }

/-- The uploader name used by the upload route: the authenticated username
when logged in, else the uploader_name form field, else "Anonymous". -/
def uploaderName (auth : Option String) (uploader_name_field : Option String) : String :=
  match auth with
  | some u => u
  | none => uploader_name_field.getD "Anonymous"

/-- upload route (POST branch).  uploadOutcome is the outcome the remote
store call cloudinary.uploader.upload(file) would have: either a raised
exception (its message) or the returned result dictionary.  When the file
field is missing or has an empty name the handler falls through to
re-rendering the form. -/
def upload (uploadOutcome : Except String UploadResult) (auth : Option String)
    (file : Option UploadedFile) (uploader_name_field : Option String)
    (description : Option String) (nextId : Nat) (db : DB) : HandlerResult :=
  match file with
  | none => { db := db, response := .render "upload.html" }
  | some f =>
    if f.filename = "" then
      { db := db, response := .render "upload.html" }
    else
      let size := f.content.length
      match uploadOutcome with
      | .error e =>
          { db := db, response := .redirect "upload",
            flashes := ["Upload failed: " ++ e], events := [.remoteUpload] }
      | .ok result =>
          let media : Media :=
            { id := nextId, filename := f.filename, url := result.secure_url,
              public_id := result.public_id, is_visible := true,
              uploaded_by := some (uploaderName auth uploader_name_field),
              description := description, size := some size,
              mimetype := some f.mimetype }
          { db := { db with medias := db.medias ++ [media] },
            response := .redirect "gallery",
            flashes := ["Upload successful!"],
            events := [.remoteUpload, .commit] }

/-- gallery route: all Media rows with is_visible true. -/
def gallery (db : DB) : List Media := db.medias.filter (fun m => m.is_visible)

/-- manage route: all Media rows regardless of visibility. -/
def manage (db : DB) : List Media := db.medias

/-- delete route.  destroy is the behaviour of
cloudinary.uploader.destroy: for a given public_id, either a raised
exception (which the handler does not catch, so the request aborts with an
unhandled error and no local change is committed) or a returned
acknowledgement, which the code discards. -/
def delete (destroy : String → Except String Ack) (media_id : Nat) (db : DB) :
    HandlerResult :=
  match db.medias.find? (fun m => m.id == media_id) with
  | none => { db := db, response := .redirect "manage" }
  | some media =>
    match destroy media.public_id with
    | .error _ =>
        { db := db, response := .serverError,
          events := [.destroyRemote media.public_id] }
    | .ok _ =>
        { db := { db with medias := db.medias.eraseP (fun m => m.id == media_id) },
          response := .redirect "manage",
          flashes := ["Deleted successfully"],
          events := [.destroyRemote media.public_id, .deleteLocal media.id, .commit] }

/-- Flip the is_visible flag of the first row carrying the given id
(Media.query.get returns the unique primary-key row; the handler mutates
that object). -/
def flipFirst : List Media → Nat → List Media
  | [], _ => []
  | m :: rest, media_id =>
      if m.id == media_id then { m with is_visible := !m.is_visible } :: rest
      else m :: flipFirst rest media_id

/-- toggle_visibility route: flip the flag of the found row and commit, or
do nothing when the id matches no row. -/
def toggle_visibility (media_id : Nat) (db : DB) : HandlerResult :=
  match db.medias.find? (fun m => m.id == media_id) with
  | none => { db := db, response := .redirect "manage" }
  | some _ =>
      { db := { db with medias := flipFirst db.medias media_id },
        response := .redirect "manage",
        events := [.commit] }

/-- download_selected route.  fetch is the outbound HTTP GET
(requests.get(url).content).  The ZIP archive is modelled as the ordered
list of (entry name, entry bytes) pairs written by zf.writestr. -/
def download_selected (fetch : String → List Nat) (selected_ids : List Nat)
    (db : DB) : HandlerResult :=
  if selected_ids.isEmpty then
    { db := db, response := .redirect "manage", flashes := ["No files selected"] }
  else
    let entries := selected_ids.filterMap (fun media_id =>
      (db.medias.find? (fun m => m.id == media_id)).map
        (fun m => (m.filename, fetch m.url)))
    { db := db, response := .sendFile "selected_media.zip" entries }

/-- bulk_toggle_visibility route: flip the flag of every found row (the
session sees earlier flips, so the store is threaded through the loop),
commit once, answer with a JSON status acknowledgement. -/
def bulk_toggle_visibility (media_ids : List Nat) (db : DB) : HandlerResult :=
  let finalMedias := media_ids.foldl (fun cur media_id =>
    match cur.find? (fun m => m.id == media_id) with
    | none => cur
    | some _ => flipFirst cur media_id) db.medias
  { db := { db with medias := finalMedias },
    response := .json [("status", "success")],
    events := [.commit] }

/-- The loop of bulk_delete: for each id, look the row up in the current
store, invoke the remote destroy, and mark the row deleted.  An exception
raised by destroy aborts the remaining iterations (and, since commit is
never reached, the whole transaction); the events recorded up to the
failed invocation have still happened. -/
def bulkDeleteLoop (destroy : String → Except String Ack) :
    List Nat → List Media → List Event → Except (List Event) (List Media × List Event)
  | [], medias, evs => .ok (medias, evs)
  | media_id :: rest, medias, evs =>
    match medias.find? (fun m => m.id == media_id) with
    | none => bulkDeleteLoop destroy rest medias evs
    | some media =>
      match destroy media.public_id with
      | .error _ => .error (evs ++ [.destroyRemote media.public_id])
      | .ok _ =>
          bulkDeleteLoop destroy rest (medias.eraseP (fun m => m.id == media_id))
            (evs ++ [.destroyRemote media.public_id, .deleteLocal media.id])

/-- bulk_delete route: run the loop over the posted ids, then a single
commit; on an uncaught destroy exception the request aborts with an
unhandled error and the store is left unchanged (nothing was committed). -/
def bulk_delete (destroy : String → Except String Ack) (media_ids : List Nat)
    (db : DB) : HandlerResult :=
  match bulkDeleteLoop destroy media_ids db.medias [] with
  | .error evs => { db := db, response := .serverError, events := evs }
  | .ok (medias2, evs) =>
      { db := { db with medias := medias2 },
        response := .json [("status", "success")],
        events := evs ++ [.commit] }

/-! ### Generic list lemmas used by several handler proofs -/

/-- Removing the first row matching p removes exactly the head of the
matching rows. -/
theorem filter_eraseP {α : Type} (p : α → Bool) :
    ∀ l : List α, (l.eraseP p).filter p = (l.filter p).tail := by
  intro l
  induction l with
  | nil => rfl
  | cons a t ih =>
      by_cases h : p a = true
      · simp [List.eraseP_cons, h, List.filter_cons, ih]
      · simp only [Bool.not_eq_true] at h
        simp [List.eraseP_cons, h, List.filter_cons, ih]

/-- A row that is present before eraseP and absent afterwards is exactly
the row find? returns. -/
theorem find?_eq_of_not_mem_eraseP {α : Type} (p : α → Bool) :
    ∀ (l : List α) (m : α), m ∈ l → m ∉ l.eraseP p → l.find? p = some m := by
  intro l
  induction l with
  | nil => intro m hm; exact absurd hm (List.not_mem_nil m)
  | cons a t ih =>
      intro m hm hnot
      by_cases h : p a = true
      · have herase : (a :: t).eraseP p = t := by simp [List.eraseP_cons, h]
        rw [herase] at hnot
        have : m = a := by
          rcases List.mem_cons.mp hm with h1 | h1
          · exact h1
          · exact absurd h1 hnot
        subst this
        simp [List.find?_cons, h]
      · simp only [Bool.not_eq_true] at h
        have herase : (a :: t).eraseP p = a :: t.eraseP p := by
          simp [List.eraseP_cons, h]
        rw [herase] at hnot
        have hma : m ≠ a := by
          intro he; exact hnot (he ▸ List.mem_cons_self a (t.eraseP p))
        have hmt : m ∈ t := by
          rcases List.mem_cons.mp hm with h1 | h1
          · exact absurd h1 hma
          · exact h1
        have hmnot : m ∉ t.eraseP p := fun hc => hnot (List.mem_cons_of_mem a hc)
        simp [List.find?_cons, h, ih m hmt hmnot]

/-- Under a Nodup key column, at most one row matches a given key. -/
theorem filter_beq_length_le_one {α β : Type} [BEq β] [LawfulBEq β]
    (f : α → β) (b : β) :
    ∀ l : List α, (l.map f).Nodup → (l.filter (fun x => f x == b)).length ≤ 1 := by
  intro l
  induction l with
  | nil => intro _; simp
  | cons a t ih =>
      intro hnd
      rw [List.map_cons, List.nodup_cons] at hnd
      by_cases h : f a = b
      · have hnone : t.filter (fun x => f x == b) = [] := by
          rw [List.filter_eq_nil_iff]
          intro x hx hbeq
          have : f x = b := by simpa using hbeq
          exact hnd.1 (h ▸ this ▸ List.mem_map_of_mem f hx)
        simp [List.filter_cons, h, hnone]
      · have hba : (f a == b) = false := by simpa using h
        simpa [List.filter_cons, hba] using ih hnd.2

/-- Under a Nodup key column, find? by the key of a present row returns
that row. -/
theorem find?_beq_self {α β : Type} [BEq β] [LawfulBEq β] (f : α → β) :
    ∀ (l : List α) (m : α), (l.map f).Nodup → m ∈ l →
      l.find? (fun x => f x == f m) = some m := by
  intro l
  induction l with
  | nil => intro m _ hm; exact absurd hm (List.not_mem_nil m)
  | cons a t ih =>
      intro m hnd hm
      rw [List.map_cons, List.nodup_cons] at hnd
      by_cases h : f a = f m
      · have : m = a := by
          rcases List.mem_cons.mp hm with h1 | h1
          · exact h1
          · exact absurd (h ▸ List.mem_map_of_mem f h1) hnd.1
        subst this
        simp [List.find?_cons, h]
      · have hmt : m ∈ t := by
          rcases List.mem_cons.mp hm with h1 | h1
          · exact absurd (congrArg f h1.symm) h
          · exact h1
        have hba : (f a == f m) = false := by simpa using h
        simp [List.find?_cons, hba, ih m hnd.2 hmt]

/-- A list of length at most one containing m is the singleton [m]. -/
theorem eq_singleton_of_length_le_one {α : Type} (l : List α) (m : α)
    (hm : m ∈ l) (hlen : l.length ≤ 1) : l = [m] := by
  match l, hm with
  | [a], hm =>
      have : m = a := by simpa using hm
      simp [this]
  | a :: b :: t, _ => simp at hlen

/-! ### C3, C6, C10: the upload route -/

/-- C3: a POST to upload whose remote upload call fails leaves the Media
catalog unchanged, flashes the error message, and redirects back to the
upload form. -/
theorem C3_upload_failure (e : String) (auth uploader_name_field description : Option String)
    (f : UploadedFile) (nextId : Nat) (db : DB) (hf : f.filename ≠ "") :
    upload (.error e) auth (some f) uploader_name_field description nextId db
      = { db := db, response := .redirect "upload",
          flashes := ["Upload failed: " ++ e], events := [.remoteUpload] } := by
  simp [upload, hf]

/-- C3 witness: concrete failing upload of a one-byte file. -/
theorem C3_upload_failure_witness :
    upload (.error "boom") none (some { filename := "a.jpg", content := [1], mimetype := "image/jpeg" })
        none none 1 { users := [], medias := [] }
      = { db := { users := [], medias := [] }, response := .redirect "upload",
          flashes := ["Upload failed: boom"], events := [.remoteUpload] } :=
  C3_upload_failure "boom" none none none
    { filename := "a.jpg", content := [1], mimetype := "image/jpeg" } 1
    { users := [], medias := [] } (by decide)

/-- C6: a successful POST to upload appends exactly one Media record
carrying the submitted and returned values, visible by default and hence
present in the gallery listing; the response redirects to the gallery with
a success notice. -/
theorem C6_upload_success (r : UploadResult) (auth uploader_name_field description : Option String)
    (f : UploadedFile) (nextId : Nat) (db : DB) (hf : f.filename ≠ "") :
    (upload (.ok r) auth (some f) uploader_name_field description nextId db).db.medias
        = db.medias ++
          [{ id := nextId, filename := f.filename, url := r.secure_url,
             public_id := r.public_id, is_visible := true,
             uploaded_by := some (uploaderName auth uploader_name_field),
             description := description, size := some f.content.length,
             mimetype := some f.mimetype }] ∧
    ({ id := nextId, filename := f.filename, url := r.secure_url,
       public_id := r.public_id, is_visible := true,
       uploaded_by := some (uploaderName auth uploader_name_field),
       description := description, size := some f.content.length,
       mimetype := some f.mimetype } : Media)
        ∈ gallery (upload (.ok r) auth (some f) uploader_name_field description nextId db).db ∧
    (upload (.ok r) auth (some f) uploader_name_field description nextId db).response
        = .redirect "gallery" ∧
    (upload (.ok r) auth (some f) uploader_name_field description nextId db).flashes
        = ["Upload successful!"] := by
  refine ⟨by simp [upload, hf], ?_, by simp [upload, hf], by simp [upload, hf]⟩
  simp [upload, hf, gallery, List.mem_filter]

/-- C6 witness: concrete successful upload into an empty catalog. -/
theorem C6_upload_success_witness :
    (upload (.ok { secure_url := "http://cdn/x", public_id := "pid" }) (some "bob")
        (some { filename := "a.jpg", content := [1, 2], mimetype := "image/jpeg" })
        none (some "pic") 1 { users := [], medias := [] }).db.medias
      = [{ id := 1, filename := "a.jpg", url := "http://cdn/x", public_id := "pid",
           is_visible := true, uploaded_by := some "bob", description := some "pic",
           size := some 2, mimetype := some "image/jpeg" }] :=
  (C6_upload_success { secure_url := "http://cdn/x", public_id := "pid" } (some "bob")
    none (some "pic") { filename := "a.jpg", content := [1, 2], mimetype := "image/jpeg" }
    1 { users := [], medias := [] } (by decide)).1

/-- C10: a POST to upload with a missing file field or an empty submitted
filename performs no remote call, creates no row, flashes nothing, and
re-renders the upload form directly. -/
theorem C10_upload_no_file (uploadOutcome : Except String UploadResult)
    (auth uploader_name_field description : Option String) (f : UploadedFile)
    (nextId : Nat) (db : DB) (hf : f.filename = "") :
    upload uploadOutcome auth none uploader_name_field description nextId db
      = { db := db, response := .render "upload.html" } ∧
    upload uploadOutcome auth (some f) uploader_name_field description nextId db
      = { db := db, response := .render "upload.html" } := by
  exact ⟨rfl, by simp [upload, hf]⟩

/-- C10 witness: concrete absent-file and empty-filename posts. -/
theorem C10_upload_no_file_witness :
    upload (.ok { secure_url := "u", public_id := "p" }) none none none none 1
        { users := [], medias := [] }
      = { db := { users := [], medias := [] }, response := .render "upload.html" } ∧
    upload (.ok { secure_url := "u", public_id := "p" }) none
        (some { filename := "", content := [1], mimetype := "t" }) none none 1
        { users := [], medias := [] }
      = { db := { users := [], medias := [] }, response := .render "upload.html" } :=
  C10_upload_no_file (.ok { secure_url := "u", public_id := "p" }) none none none
    { filename := "", content := [1], mimetype := "t" } 1 { users := [], medias := [] }
    (by decide)

/-- Mapping a function that fixes every element of a list is the identity. -/
theorem map_eq_self_of_eq {α : Type} (f : α → α) :
    ∀ l : List α, (∀ a ∈ l, f a = a) → l.map f = l := by
  intro l
  induction l with
  | nil => intro _; rfl
  | cons a t ih =>
      intro h
      rw [List.map_cons, h a (List.mem_cons_self a t),
        ih (fun x hx => h x (List.mem_cons_of_mem a hx))]

/-- Under a Nodup id column, mutating the first row matching an id equals
flipping every row carrying that id. -/
theorem flipFirst_eq_map :
    ∀ (ms : List Media) (media_id : Nat), (ms.map Media.id).Nodup →
      flipFirst ms media_id
        = ms.map (fun m =>
            if m.id = media_id then { m with is_visible := !m.is_visible } else m) := by
  intro ms
  induction ms with
  | nil => intro _ _; rfl
  | cons a t ih =>
      intro media_id hnd
      rw [List.map_cons, List.nodup_cons] at hnd
      by_cases h : a.id = media_id
      · have htail :
            t.map (fun m =>
              if m.id = media_id then { m with is_visible := !m.is_visible } else m) = t := by
          apply map_eq_self_of_eq
          intro m hm
          have hne : m.id ≠ media_id := by
            intro he
            exact hnd.1 (h ▸ he ▸ List.mem_map_of_mem Media.id hm)
          simp [hne]
        simp [flipFirst, h, htail]
      · simp [flipFirst, h, ih media_id hnd.2]

/-- Updating a row in the visibility map keeps its id. -/
theorem flip_map_id (media_id : Nat) (m : Media) :
    (if m.id = media_id then { m with is_visible := !m.is_visible } else m).id = m.id := by
  by_cases h : m.id = media_id <;> simp [h]

/-- C7: toggle_visibility flips the is_visible flag of the found row and
changes nothing else, is a no-op on a missing id, and a toggled visible
row leaves the gallery listing while staying in the manage listing. -/
theorem C7_toggle_visibility (media_id : Nat) (db : DB) :
    (db.medias.find? (fun m => m.id == media_id) = none →
        toggle_visibility media_id db = { db := db, response := .redirect "manage" }) ∧
    (∀ mrow, db.medias.find? (fun m => m.id == media_id) = some mrow →
      (db.medias.map Media.id).Nodup →
      (toggle_visibility media_id db).db.medias
          = db.medias.map (fun m =>
              if m.id = media_id then { m with is_visible := !m.is_visible } else m) ∧
      (toggle_visibility media_id db).response = .redirect "manage" ∧
      (mrow.is_visible = true →
        (∀ x ∈ gallery (toggle_visibility media_id db).db, x.id ≠ media_id) ∧
        (∃ x ∈ manage (toggle_visibility media_id db).db, x.id = media_id))) := by
  constructor
  · intro h
    simp [toggle_visibility, h]
  · intro mrow hfind hnd
    have hmem : mrow ∈ db.medias := List.mem_of_find?_eq_some hfind
    have hmid : mrow.id = media_id := by
      have := List.find?_some hfind
      simpa using this
    have hres : (toggle_visibility media_id db).db.medias
        = db.medias.map (fun m =>
            if m.id = media_id then { m with is_visible := !m.is_visible } else m) := by
      simp [toggle_visibility, hfind, flipFirst_eq_map db.medias media_id hnd]
    refine ⟨hres, by simp [toggle_visibility, hfind], ?_⟩
    intro hvis
    constructor
    · intro x hx hxid
      rw [gallery, hres] at hx
      have hx2 := List.mem_filter.mp hx
      rcases List.mem_map.mp hx2.1 with ⟨y, hy, hxy⟩
      have hyid : y.id = media_id := by
        have := flip_map_id media_id y
        rw [hxy] at this
        rw [← this, hxid]
      have hym : y = mrow :=
        List.inj_on_of_nodup_map hnd hy hmem (by rw [hyid, hmid])
      subst hym
      rw [← hxy, if_pos hyid, hvis] at hx
      have := (List.mem_filter.mp hx).2
      simp at this
    · refine ⟨{ mrow with is_visible := !mrow.is_visible }, ?_, by simp [hmid]⟩
      rw [manage, hres]
      have : (if mrow.id = media_id then { mrow with is_visible := !mrow.is_visible } else mrow)
          = { mrow with is_visible := !mrow.is_visible } := by simp [hmid]
      exact this ▸ List.mem_map_of_mem _ hmem

/-- A concrete visible media row. -/
def exMedia1 : Media :=
  { id := 1, filename := "a.jpg", url := "http://cdn/a", public_id := "pid1",
    is_visible := true, uploaded_by := some "bob", description := none,
    size := some 3, mimetype := some "image/jpeg" }

/-- A concrete hidden media row. -/
def exMedia2 : Media :=
  { id := 2, filename := "b.png", url := "http://cdn/b", public_id := "pid2",
    is_visible := false, uploaded_by := none, description := some "x",
    size := some 1, mimetype := some "image/png" }

/-- A concrete store with two media rows and no user. -/
def exDB : DB := { users := [], medias := [exMedia1, exMedia2] }

/-- C7 witness: toggling the visible row 1 of the concrete two-row
catalog flips exactly that row. -/
theorem C7_toggle_visibility_witness :
    (toggle_visibility 1 exDB).db.medias
      = exDB.medias.map (fun m =>
          if m.id = 1 then { m with is_visible := !m.is_visible } else m) ∧
    (∀ x ∈ gallery (toggle_visibility 1 exDB).db, x.id ≠ 1) ∧
    (∃ x ∈ manage (toggle_visibility 1 exDB).db, x.id = 1) := by
  have h := (C7_toggle_visibility 1 exDB).2 exMedia1 (by decide) (by decide)
  exact ⟨h.1, (h.2.2 (by decide)).1, (h.2.2 (by decide)).2⟩

/-! ### C4, C5: the authentication routes -/

/-- The tail of a list of length at most one is empty. -/
theorem tail_eq_nil_of_length_le_one {α : Type} (l : List α) (h : l.length ≤ 1) :
    l.tail = [] := by
  match l with
  | [] => rfl
  | [a] => rfl
  | a :: b :: t => simp at h

/-- One setup call on a store holding at most one user of the given name
leaves exactly the freshly inserted user under that name. -/
theorem setup_filter (username password : String) (nextId : Nat) (db : DB)
    (hu : username ≠ "") (hp : password ≠ "")
    (hlen : (db.users.filter (fun u => u.username == username)).length ≤ 1) :
    (setup username password nextId db).db.users.filter (fun u => u.username == username)
      = [{ id := nextId, username := username,
           password := generate_password_hash password }] := by
  unfold setup
  rw [if_neg (by simp [hu, hp])]
  cases hfind : db.users.find? (fun u => u.username == username) with
  | none =>
      have hnil : db.users.filter (fun u => u.username == username) = [] := by
        rw [List.filter_eq_nil_iff]
        intro x hx
        exact List.find?_eq_none.mp hfind x hx
      simp [List.filter_append, hnil]
  | some u =>
      have htail : (db.users.filter (fun u => u.username == username)).tail = [] :=
        tail_eq_nil_of_length_le_one _ hlen
      simp [List.filter_append, filter_eraseP, htail]

/-- C4: running setup twice with the same non-empty username leaves
exactly one user row under that username, carrying the hash of the latest
password. -/
theorem C4_setup_idempotent (username p1 p2 : String) (n1 n2 : Nat) (db : DB)
    (hu : username ≠ "") (hp1 : p1 ≠ "") (hp2 : p2 ≠ "")
    (hunique : (db.users.filter (fun u => u.username == username)).length ≤ 1) :
    (setup username p2 n2 (setup username p1 n1 db).db).db.users.filter
        (fun u => u.username == username)
      = [{ id := n2, username := username, password := generate_password_hash p2 }] := by
  have h1 := setup_filter username p1 n1 db hu hp1 hunique
  have hlen1 : ((setup username p1 n1 db).db.users.filter
      (fun u => u.username == username)).length ≤ 1 := by
    rw [h1]; simp
  exact setup_filter username p2 n2 _ hu hp2 hlen1

/-- C4 witness: two concrete setup calls on an empty store. -/
theorem C4_setup_idempotent_witness :
    (setup "admin" "b" 2 (setup "admin" "a" 1 { users := [], medias := [] }).db).db.users.filter
        (fun u => u.username == "admin")
      = [{ id := 2, username := "admin", password := generate_password_hash "b" }] :=
  C4_setup_idempotent "admin" "a" "b" 1 2 { users := [], medias := [] }
    (by decide) (by decide) (by decide) (by decide)

/-- The empty-field branch of register. -/
theorem register_empty (username password : String) (nextId : Nat) (db : DB)
    (h : username = "" ∨ password = "") :
    register username password nextId db
      = { db := db, response := .redirect "register",
          flashes := ["Username and password cannot be empty."] } := by
  simp [register, h]

/-- The taken-username branch of register. -/
theorem register_taken (username password : String) (nextId : Nat) (db : DB)
    (hne : ¬(username = "" ∨ password = ""))
    (h : (db.users.find? (fun u => u.username == username)).isSome) :
    register username password nextId db
      = { db := db, response := .redirect "register",
          flashes := ["That username is already taken."] } := by
  rcases Option.isSome_iff_exists.mp h with ⟨u, hu⟩
  simp [register, hne, hu]

/-- C5: register rejects empty fields or a taken username without
creating a user and redirects back to the form with a message; a fresh
registration inserts the user, after which a login with the same
credentials succeeds, and a second register with the same username fails. -/
theorem C5_register_login (username password : String) (nextId : Nat) (db : DB) :
    ((username = "" ∨ password = "") →
        register username password nextId db
          = { db := db, response := .redirect "register",
              flashes := ["Username and password cannot be empty."] }) ∧
    ((db.users.find? (fun u => u.username == username)).isSome →
        (register username password nextId db).db = db ∧
        (register username password nextId db).response = .redirect "register" ∧
        (register username password nextId db).flashes ≠ []) ∧
    (username ≠ "" → password ≠ "" →
      db.users.find? (fun u => u.username == username) = none →
      (register username password nextId db).db.users
          = db.users ++ [{ id := nextId, username := username,
                           password := generate_password_hash password }] ∧
      (register username password nextId db).response = .redirect "login" ∧
      (login username password (register username password nextId db).db).sessionUser
          = some { id := nextId, username := username,
                   password := generate_password_hash password } ∧
      (login username password (register username password nextId db).db).response
          = .redirect "manage" ∧
      (∀ (nextId2 : Nat) (password2 : String),
        (register username password2 nextId2 (register username password nextId db).db).db
            = (register username password nextId db).db ∧
        (register username password2 nextId2 (register username password nextId db).db).response
            = .redirect "register")) := by
  refine ⟨fun h => register_empty username password nextId db h, ?_, ?_⟩
  · intro hsome
    by_cases h : username = "" ∨ password = ""
    · rw [register_empty username password nextId db h]
      exact ⟨rfl, rfl, by simp⟩
    · rw [register_taken username password nextId db h hsome]
      exact ⟨rfl, rfl, by simp⟩
  · intro hu hp hfind
    have hcond : ¬(username = "" ∨ password = "") := by simp [hu, hp]
    have hreg : (register username password nextId db).db.users
        = db.users ++ [{ id := nextId, username := username,
                         password := generate_password_hash password }] := by
      simp [register, hcond, hfind]
    have hhead : ((register username password nextId db).db.users).head?.isNone = false := by
      rw [hreg]
      cases db.users <;> simp
    have hfind2 : (register username password nextId db).db.users.find?
        (fun u => u.username == username)
          = some { id := nextId, username := username,
                   password := generate_password_hash password } := by
      rw [hreg, List.find?_append, hfind]
      simp
    refine ⟨hreg, by simp [register, hcond, hfind], ?_, ?_, ?_⟩
    · simp [login, hhead, hfind2, check_password_hash]
    · simp [login, hhead, hfind2, check_password_hash]
    · intro nextId2 password2
      by_cases hp2 : password2 = ""
      · rw [register_empty username password2 nextId2 _ (Or.inr hp2)]
        exact ⟨rfl, rfl⟩
      · rw [register_taken username password2 nextId2 _ (by simp [hu, hp2])
          (by rw [hfind2]; rfl)]
        exact ⟨rfl, rfl⟩

/-- C5 witness: a concrete register and login round trip on an empty
store, followed by a failing duplicate registration. -/
theorem C5_register_login_witness :
    (login "alice" "pw" (register "alice" "pw" 1 { users := [], medias := [] }).db).response
        = .redirect "manage" ∧
    (register "alice" "pw2" 2 (register "alice" "pw" 1 { users := [], medias := [] }).db).response
        = .redirect "register" := by
  have h := (C5_register_login "alice" "pw" 1 { users := [], medias := [] }).2.2
    (by decide) (by decide) (by decide)
  exact ⟨h.2.2.2.1, (h.2.2.2.2 2 "pw2").2⟩

/-! ### C8: bulk_toggle_visibility -/

/-- flipFirst keeps the id column unchanged. -/
theorem flipFirst_map_id : ∀ (ms : List Media) (media_id : Nat),
    (flipFirst ms media_id).map Media.id = ms.map Media.id := by
  intro ms
  induction ms with
  | nil => intro _; rfl
  | cons a t ih =>
      intro media_id
      by_cases h : (a.id == media_id) = true
      · simp [flipFirst, h]
      · simp only [Bool.not_eq_true] at h
        simp [flipFirst, h, ih media_id]

/-- The bulk visibility loop over duplicate-free ids on a Nodup-id table
flips exactly the rows whose id occurs in the list. -/
theorem bulk_toggle_fold (ids : List Nat) :
    ∀ ms : List Media, ids.Nodup → (ms.map Media.id).Nodup →
      (ids.foldl (fun cur media_id =>
          match cur.find? (fun m => m.id == media_id) with
          | none => cur
          | some _ => flipFirst cur media_id) ms)
        = ms.map (fun m =>
            if m.id ∈ ids then { m with is_visible := !m.is_visible } else m) := by
  induction ids with
  | nil =>
      intro ms _ _
      rw [List.foldl_nil]
      exact (map_eq_self_of_eq _ ms (by intro a _; simp)).symm
  | cons mid rest ih =>
      intro ms hnd hnd2
      rw [List.nodup_cons] at hnd
      rw [List.foldl_cons]
      cases hf : ms.find? (fun m => m.id == mid) with
      | none =>
          simp only [hf]
          rw [ih ms hnd.2 hnd2]
          apply List.map_congr_left
          intro m hm
          have hne : m.id ≠ mid := by
            have := List.find?_eq_none.mp hf m hm
            simpa using this
          simp [List.mem_cons, hne]
      | some m0 =>
          simp only [hf]
          rw [flipFirst_eq_map ms mid hnd2]
          have hnd2b : ((ms.map (fun m =>
              if m.id = mid then { m with is_visible := !m.is_visible } else m)).map
                Media.id).Nodup := by
            rw [List.map_map]
            have : ∀ m ∈ ms, (Media.id ∘ fun m =>
                if m.id = mid then { m with is_visible := !m.is_visible } else m) m
                  = Media.id m := by
              intro m _
              exact flip_map_id mid m
            rw [List.map_congr_left this]
            exact hnd2
          rw [ih _ hnd.2 hnd2b, List.map_map]
          apply List.map_congr_left
          intro m hm
          by_cases h1 : m.id = mid
          · have : mid ∉ rest := hnd.1
            simp [Function.comp, h1, this]
          · simp [Function.comp, h1, List.mem_cons]

/-- C8 counterexample: the duplicate id list [1, 1] on the concrete
catalog: row 1 is found, yet its flag ends unchanged because it is
flipped twice, contradicting the claim that every found row ends with its
flag flipped. -/
theorem C8_counterexample :
    (exDB.medias.find? (fun m => m.id == 1)).isSome = true ∧
    exMedia1.is_visible = true ∧
    (bulk_toggle_visibility [1, 1] exDB).db.medias.find? (fun m => m.id == 1)
        = some exMedia1 :=
  ⟨rfl, rfl, rfl⟩

/-- C8 (amended): for a duplicate-free posted list, bulk_toggle_visibility
flips exactly the found rows, silently skips missing ids, performs the one
commit, and answers with the JSON success acknowledgement; in general each
found row is flipped once per occurrence of its id. -/
theorem C8_bulk_toggle_visibility (media_ids : List Nat) (db : DB)
    (hnd : media_ids.Nodup) (hnd2 : (db.medias.map Media.id).Nodup) :
    (bulk_toggle_visibility media_ids db).db.medias
        = db.medias.map (fun m =>
            if m.id ∈ media_ids then { m with is_visible := !m.is_visible } else m) ∧
    (bulk_toggle_visibility media_ids db).response = .json [("status", "success")] ∧
    (bulk_toggle_visibility media_ids db).events = [Event.commit] := by
  refine ⟨?_, rfl, rfl⟩
  exact bulk_toggle_fold media_ids db.medias hnd hnd2

/-- C8 witness: ids [1, 999] on the concrete catalog flip row 1 and skip
the absent id 999. -/
theorem C8_bulk_toggle_visibility_witness :
    (bulk_toggle_visibility [1, 999] exDB).db.medias
        = exDB.medias.map (fun m =>
            if m.id ∈ [1, 999] then { m with is_visible := !m.is_visible } else m) ∧
    (bulk_toggle_visibility [1, 999] exDB).response = .json [("status", "success")] :=
  ⟨(C8_bulk_toggle_visibility [1, 999] exDB (by decide) (by decide)).1,
   (C8_bulk_toggle_visibility [1, 999] exDB (by decide) (by decide)).2.1⟩

/-! ### C9: download_selected -/

/-- Filtering a Nodup-id table by membership in mid :: rest is, up to
permutation, the row found for mid followed by the filter over rest. -/
theorem filter_mem_cons_perm (mid : Nat) (rest : List Nat) :
    ∀ (ms : List Media) (m : Media), (ms.map Media.id).Nodup →
      ms.find? (fun x => x.id == mid) = some m → mid ∉ rest →
      (ms.filter (fun x => decide (x.id ∈ mid :: rest))).Perm
        (m :: ms.filter (fun x => decide (x.id ∈ rest))) := by
  intro ms
  induction ms with
  | nil => intro m _ hf _; simp at hf
  | cons a t ih =>
      intro m hnd hf hmr
      rw [List.map_cons, List.nodup_cons] at hnd
      by_cases ha : a.id = mid
      · have hpa : (a.id == mid) = true := by simpa using ha
        rw [List.find?_cons_of_pos t hpa] at hf
        have hm : a = m := Option.some.inj hf
        subst hm
        have htcong : t.filter (fun x => decide (x.id ∈ mid :: rest))
            = t.filter (fun x => decide (x.id ∈ rest)) := by
          apply List.filter_congr
          intro x hx
          have hne : x.id ≠ mid := by
            intro he
            exact hnd.1 (ha ▸ he ▸ List.mem_map_of_mem Media.id hx)
          simp [List.mem_cons, hne]
        have hanotr : ¬(decide (a.id ∈ rest)) = true := by
          simp only [decide_eq_true_eq]
          intro hc
          exact hmr (ha ▸ hc)
        have hain : (decide (a.id ∈ mid :: rest)) = true := by
          simp [List.mem_cons, ha]
        simp only [List.filter_cons]
        rw [if_pos hain, if_neg hanotr, htcong]
      · have hpa : ¬(a.id == mid) = true := by simpa using ha
        rw [List.find?_cons_of_neg t hpa] at hf
        by_cases har : a.id ∈ rest
        · have hain : (decide (a.id ∈ mid :: rest)) = true := by
            simp [List.mem_cons, har]
          have hain2 : (decide (a.id ∈ rest)) = true := by simpa using har
          simp only [List.filter_cons]
          rw [if_pos hain, if_pos hain2]
          exact ((ih m hnd.2 hf hmr).cons a).trans
            (List.Perm.swap m a (t.filter (fun x => decide (x.id ∈ rest))))
        · have hain : ¬(decide (a.id ∈ mid :: rest)) = true := by
            simp [List.mem_cons, ha, har]
          have hain2 : ¬(decide (a.id ∈ rest)) = true := by simpa using har
          simp only [List.filter_cons]
          rw [if_neg hain, if_neg hain2]
          exact ih m hnd.2 hf hmr

/-- The entries collected per selected id are a permutation of the rows
of the table whose id is selected, for a duplicate-free selection over a
Nodup-id table. -/
theorem download_entries_perm {β : Type} (fn : Media → β) :
    ∀ (sIds : List Nat) (ms : List Media), sIds.Nodup → (ms.map Media.id).Nodup →
      (sIds.filterMap (fun media_id =>
          (ms.find? (fun m => m.id == media_id)).map fn)).Perm
        ((ms.filter (fun m => decide (m.id ∈ sIds))).map fn) := by
  intro sIds
  induction sIds with
  | nil => intro ms _ _; simp
  | cons mid rest ih =>
      intro ms hnd hnd2
      rw [List.nodup_cons] at hnd
      rw [List.filterMap_cons]
      cases hf : ms.find? (fun m => m.id == mid) with
      | none =>
          simp only [hf, Option.map_none']
          have hcong : ms.filter (fun m => decide (m.id ∈ mid :: rest))
              = ms.filter (fun m => decide (m.id ∈ rest)) := by
            apply List.filter_congr
            intro x hx
            have hne : x.id ≠ mid := by
              have := List.find?_eq_none.mp hf x hx
              simpa using this
            simp [List.mem_cons, hne]
          rw [hcong]
          exact ih ms hnd.2 hnd2
      | some m =>
          simp only [hf, Option.map_some']
          have hperm := filter_mem_cons_perm mid rest ms m hnd2 hf hnd.1
          have hstep := (ih ms hnd.2 hnd2).cons (fn m)
          have hmap := (hperm.map fn).symm
          rw [List.map_cons] at hmap
          exact hstep.trans hmap

/-- C9 counterexample: the duplicate selection [1, 1] on the concrete
catalog yields a ZIP with two entries although exactly one still-existing
Media row is selected, contradicting exactly one entry per selected row. -/
theorem C9_counterexample :
    (download_selected (fun _ => [7]) [1, 1] exDB).response
        = .sendFile "selected_media.zip" [("a.jpg", [7]), ("a.jpg", [7])] ∧
    (exDB.medias.filter (fun m => decide (m.id ∈ ([1, 1] : List Nat)))).length = 1 :=
  ⟨rfl, rfl⟩

/-- C9 (amended): for a non-empty, duplicate-free selection,
download_selected answers with the selected_media.zip attachment whose
entries are, one per occurrence of a selected id matching a row, the
stored filename paired with the bytes fetched from the public URL; up to
order they are exactly one entry per still-existing selected row, and
missing ids contribute nothing. -/
theorem C9_download_selected (fetch : String → List Nat) (selected_ids : List Nat)
    (db : DB) (hne : selected_ids ≠ []) (hnd : selected_ids.Nodup)
    (hnd2 : (db.medias.map Media.id).Nodup) :
    (download_selected fetch selected_ids db).response
        = .sendFile "selected_media.zip"
            (selected_ids.filterMap (fun media_id =>
              (db.medias.find? (fun m => m.id == media_id)).map
                (fun m => (m.filename, fetch m.url)))) ∧
    (selected_ids.filterMap (fun media_id =>
        (db.medias.find? (fun m => m.id == media_id)).map
          (fun m => (m.filename, fetch m.url)))).Perm
      ((db.medias.filter (fun m => decide (m.id ∈ selected_ids))).map
        (fun m => (m.filename, fetch m.url))) := by
  have hne2 : selected_ids.isEmpty = false := by
    cases selected_ids with
    | nil => exact absurd rfl hne
    | cons a t => rfl
  exact ⟨by simp [download_selected, hne2],
    download_entries_perm _ selected_ids db.medias hnd hnd2⟩

/-- C9 witness: selecting the two concrete rows produces the ZIP with
their two filenames and fetched bytes. -/
theorem C9_download_selected_witness :
    (download_selected (fun _ => [7]) [1, 2] exDB).response
        = .sendFile "selected_media.zip" [("a.jpg", [7]), ("b.png", [7])] := by
  have h := (C9_download_selected (fun _ => [7]) [1, 2] exDB
    (by decide) (by decide) (by decide)).1
  rw [h]
  rfl

/-! ### C1, C2: delete and bulk_delete -/

/-- A remote destroy that always answers with an err acknowledgement
without raising. -/
def destroyAckErr : String → Except String Ack := fun _ => .ok .err

/-- A remote destroy that always succeeds. -/
def destroyAckOk : String → Except String Ack := fun _ => .ok .ok

/-- Every local deletion recorded in a trace is preceded by a remote
destroy invocation carrying the public_id of a table row with the deleted
id. -/
def destroysPrecedeDeletes (medias : List Media) (evs : List Event) : Prop :=
  ∀ l1 media_id l2, evs = l1 ++ Event.deleteLocal media_id :: l2 →
    ∃ m, m ∈ medias ∧ m.id = media_id ∧ Event.destroyRemote m.public_id ∈ l1

/-- The empty trace satisfies the ordering property. -/
theorem dPD_nil (medias : List Media) : destroysPrecedeDeletes medias [] := by
  intro l1 media_id l2 h
  simp at h

/-- A trace without local deletions satisfies the ordering property. -/
theorem dPD_of_no_deletes (medias : List Media) (evs : List Event)
    (h : ∀ media_id, Event.deleteLocal media_id ∉ evs) :
    destroysPrecedeDeletes medias evs := by
  intro l1 media_id l2 heq
  have hmem : Event.deleteLocal media_id ∈ evs := by
    rw [heq]
    exact List.mem_append_right l1 (List.mem_cons_self _ _)
  exact absurd hmem (h media_id)

/-- The two-event block recorded for one deleted row satisfies the
ordering property. -/
theorem dPD_destroy_delete_pair (medias : List Media) (m : Media) (hm : m ∈ medias) :
    destroysPrecedeDeletes medias
      [Event.destroyRemote m.public_id, Event.deleteLocal m.id] := by
  intro l1 media_id l2 heq
  match l1, heq with
  | [], heq => simp at heq
  | [a], heq =>
      rw [List.singleton_append] at heq
      injection heq with h1 h2
      injection h2 with h3 h4
      injection h3 with h5
      exact ⟨m, hm, h5, by rw [← h1]; exact List.mem_cons_self _ _⟩
  | a :: b :: t, heq =>
      rw [List.cons_append, List.cons_append] at heq
      injection heq with h1 h2
      injection h2 with h3 h4
      simp at h4

/-- The ordering property is preserved by concatenating traces that each
satisfy it. -/
theorem dPD_append (medias : List Media) (evs new : List Event)
    (h1 : destroysPrecedeDeletes medias evs)
    (h2 : destroysPrecedeDeletes medias new) :
    destroysPrecedeDeletes medias (evs ++ new) := by
  intro l1 media_id l2 heq
  rcases List.append_eq_append_iff.mp heq with ⟨a', ha1, ha2⟩ | ⟨c', hc1, hc2⟩
  · rcases h2 a' media_id l2 ha2 with ⟨m, hm, hid, hmem⟩
    exact ⟨m, hm, hid, by rw [ha1]; exact List.mem_append_right _ hmem⟩
  · cases c' with
    | nil =>
        rcases h2 [] media_id l2 (by rw [List.nil_append] at hc2 ⊢; exact hc2.symm) with
          ⟨m, _, _, hmem⟩
        exact absurd hmem (List.not_mem_nil _)
    | cons x c2 =>
        rw [List.cons_append] at hc2
        injection hc2 with h3 h4
        rcases h1 l1 media_id c2 (by rw [hc1, ← h3]) with ⟨m, hm, hid, hmem⟩
        exact ⟨m, hm, hid, hmem⟩

/-- Invariants of the bulk_delete loop: the trace keeps destroys before
deletions, never contains a commit, only grows, and records a local
deletion for every row that disappears from the working table. -/
theorem bulkDeleteLoop_spec (destroy : String → Except String Ack) (medias0 : List Media) :
    ∀ (ids : List Nat) (medias : List Media) (evs : List Event),
      medias ⊆ medias0 →
      destroysPrecedeDeletes medias0 evs →
      Event.commit ∉ evs →
      ((∀ evs2, bulkDeleteLoop destroy ids medias evs = .error evs2 →
          destroysPrecedeDeletes medias0 evs2 ∧ Event.commit ∉ evs2) ∧
       (∀ medias2 evs2, bulkDeleteLoop destroy ids medias evs = .ok (medias2, evs2) →
          destroysPrecedeDeletes medias0 evs2 ∧ Event.commit ∉ evs2 ∧
          (∀ x ∈ evs, x ∈ evs2) ∧
          (∀ m, m ∈ medias → m ∉ medias2 → Event.deleteLocal m.id ∈ evs2))) := by
  intro ids
  induction ids with
  | nil =>
      intro medias evs hsub hdpd hcommit
      constructor
      · intro evs2 h
        simp [bulkDeleteLoop] at h
      · intro medias2 evs2 h
        simp only [bulkDeleteLoop, Except.ok.injEq, Prod.mk.injEq] at h
        obtain ⟨h1, h2⟩ := h
        subst h1
        subst h2
        exact ⟨hdpd, hcommit, fun x hx => hx, fun m hm hnot => absurd hm hnot⟩
  | cons media_id rest ih =>
      intro medias evs hsub hdpd hcommit
      cases hfind : medias.find? (fun m => m.id == media_id) with
      | none =>
          have hstep : bulkDeleteLoop destroy (media_id :: rest) medias evs
              = bulkDeleteLoop destroy rest medias evs := by
            simp [bulkDeleteLoop, hfind]
          rw [hstep]
          exact ih medias evs hsub hdpd hcommit
      | some media =>
          have hmem0 : media ∈ medias0 := hsub (List.mem_of_find?_eq_some hfind)
          cases hdes : destroy media.public_id with
          | error e =>
              have hstep : bulkDeleteLoop destroy (media_id :: rest) medias evs
                  = .error (evs ++ [.destroyRemote media.public_id]) := by
                simp [bulkDeleteLoop, hfind, hdes]
              rw [hstep]
              constructor
              · intro evs2 h
                injection h with h2
                subst h2
                refine ⟨dPD_append medias0 evs _ hdpd
                    (dPD_of_no_deletes medias0 _ (by intro mid2; simp)), ?_⟩
                simp [hcommit]
              · intro medias2 evs2 h
                exact absurd h (by simp)
          | ok a =>
              have hstep : bulkDeleteLoop destroy (media_id :: rest) medias evs
                  = bulkDeleteLoop destroy rest
                      (medias.eraseP (fun m => m.id == media_id))
                      (evs ++ [.destroyRemote media.public_id,
                               .deleteLocal media.id]) := by
                simp [bulkDeleteLoop, hfind, hdes]
              rw [hstep]
              have hsub2 : medias.eraseP (fun m => m.id == media_id) ⊆ medias0 :=
                fun x hx => hsub (List.eraseP_subset _ hx)
              have hdpd2 : destroysPrecedeDeletes medias0
                  (evs ++ [.destroyRemote media.public_id, .deleteLocal media.id]) :=
                dPD_append medias0 evs _ hdpd (dPD_destroy_delete_pair medias0 media hmem0)
              have hcommit2 : Event.commit
                  ∉ evs ++ [Event.destroyRemote media.public_id,
                            Event.deleteLocal media.id] := by
                simp [hcommit]
              have hres := ih _ _ hsub2 hdpd2 hcommit2
              constructor
              · exact hres.1
              · intro medias2 evs2 h
                obtain ⟨hd, hc, hmono, hcov⟩ := hres.2 medias2 evs2 h
                refine ⟨hd, hc, fun x hx => hmono x (List.mem_append_left _ hx), ?_⟩
                intro m hm hnot
                by_cases hmem2 : m ∈ medias.eraseP (fun m2 => m2.id == media_id)
                · exact hcov m hmem2 hnot
                · have hfm := find?_eq_of_not_mem_eraseP _ medias m hm hmem2
                  rw [hfind] at hfm
                  have hem : media = m := Option.some.inj hfm
                  subst hem
                  exact hmono _ (List.mem_append_right _ (by simp))

/-- C2: in both delete and bulk_delete, every locally deleted row has its
remote destroy invoked with its public_id before the local deletion is
recorded, and bulk_delete performs exactly one commit, at the end of the
trace, covering all its local deletions. -/
theorem C2_destroy_before_local_delete (destroy : String → Except String Ack)
    (media_id : Nat) (media_ids : List Nat) (db : DB) :
    destroysPrecedeDeletes db.medias (delete destroy media_id db).events ∧
    (∀ m, m ∈ db.medias → m ∉ (delete destroy media_id db).db.medias →
        Event.deleteLocal m.id ∈ (delete destroy media_id db).events) ∧
    destroysPrecedeDeletes db.medias (bulk_delete destroy media_ids db).events ∧
    (∀ m, m ∈ db.medias → m ∉ (bulk_delete destroy media_ids db).db.medias →
        Event.deleteLocal m.id ∈ (bulk_delete destroy media_ids db).events) ∧
    ((bulk_delete destroy media_ids db).response = .json [("status", "success")] →
        ∃ pre, (bulk_delete destroy media_ids db).events = pre ++ [Event.commit] ∧
          Event.commit ∉ pre) := by
  have hsingle : destroysPrecedeDeletes db.medias (delete destroy media_id db).events ∧
      (∀ m, m ∈ db.medias → m ∉ (delete destroy media_id db).db.medias →
          Event.deleteLocal m.id ∈ (delete destroy media_id db).events) := by
    cases hfind : db.medias.find? (fun m => m.id == media_id) with
    | none =>
        constructor
        · simp only [delete, hfind]
          exact dPD_nil db.medias
        · intro m hm hnot
          simp only [delete, hfind] at hnot
          exact absurd hm hnot
    | some media =>
        cases hdes : destroy media.public_id with
        | error e =>
            constructor
            · simp only [delete, hfind, hdes]
              exact dPD_of_no_deletes _ _ (by intro mid2; simp)
            · intro m hm hnot
              simp only [delete, hfind, hdes] at hnot
              exact absurd hm hnot
        | ok a =>
            have hmm : media ∈ db.medias := List.mem_of_find?_eq_some hfind
            constructor
            · simp only [delete, hfind, hdes]
              have hsplit :
                  ([Event.destroyRemote media.public_id, Event.deleteLocal media.id,
                    Event.commit] : List Event)
                    = [Event.destroyRemote media.public_id, Event.deleteLocal media.id]
                        ++ [Event.commit] := rfl
              rw [hsplit]
              exact dPD_append _ _ _ (dPD_destroy_delete_pair _ media hmm)
                (dPD_of_no_deletes _ _ (by intro mid2; simp))
            · intro m hm hnot
              simp only [delete, hfind, hdes] at hnot ⊢
              have hfm := find?_eq_of_not_mem_eraseP _ db.medias m hm hnot
              rw [hfind] at hfm
              have hem : media = m := Option.some.inj hfm
              subst hem
              simp
  have hloop := bulkDeleteLoop_spec destroy db.medias media_ids db.medias []
    (fun x hx => hx) (dPD_nil db.medias) (by simp)
  cases hres : bulkDeleteLoop destroy media_ids db.medias [] with
  | error evs2 =>
      obtain ⟨hd, hc⟩ := hloop.1 evs2 hres
      have hbulk : bulk_delete destroy media_ids db
          = { db := db, response := .serverError, events := evs2 } := by
        simp [bulk_delete, hres]
      refine ⟨hsingle.1, hsingle.2, ?_, ?_, ?_⟩
      · rw [hbulk]; exact hd
      · intro m hm hnot
        rw [hbulk] at hnot
        exact absurd hm hnot
      · intro hresp
        rw [hbulk] at hresp
        simp at hresp
  | ok pair =>
      obtain ⟨medias2, evs2⟩ := pair
      obtain ⟨hd, hc, hmono, hcov⟩ := hloop.2 medias2 evs2 hres
      have hbulk : bulk_delete destroy media_ids db
          = { db := { db with medias := medias2 },
              response := .json [("status", "success")],
              events := evs2 ++ [Event.commit] } := by
        simp [bulk_delete, hres]
      refine ⟨hsingle.1, hsingle.2, ?_, ?_, ?_⟩
      · rw [hbulk]
        exact dPD_append _ _ _ hd (dPD_of_no_deletes _ _ (by intro mid2; simp))
      · intro m hm hnot
        rw [hbulk] at hnot ⊢
        exact List.mem_append_left _ (hcov m hm hnot)
      · intro _
        rw [hbulk]
        exact ⟨evs2, rfl, hc⟩

/-- C2 witness: deleting row 1 of the concrete catalog records its local
deletion in both traces. -/
theorem C2_destroy_before_local_delete_witness :
    Event.deleteLocal 1 ∈ (bulk_delete destroyAckOk [1] exDB).events ∧
    Event.deleteLocal 1 ∈ (delete destroyAckOk 1 exDB).events :=
  ⟨(C2_destroy_before_local_delete destroyAckOk 1 [1] exDB).2.2.2.1 exMedia1
      (by decide) (by decide),
   (C2_destroy_before_local_delete destroyAckOk 1 [1] exDB).2.1 exMedia1
      (by decide) (by decide)⟩

/-- C1 counterexample: with the remote destroy answering an err
acknowledgement without raising, delete still removes the local row 1:
the destroy was not acknowledged as successful, yet the row did not
remain. -/
theorem C1_counterexample :
    destroyAckErr exMedia1.public_id = .ok .err ∧
    (delete destroyAckErr 1 exDB).db.medias = [exMedia2] ∧
    (delete destroyAckErr 1 exDB).response = .redirect "manage" :=
  ⟨rfl, rfl, rfl⟩

/-- C1 (amended): delete aborts with the catalog unchanged exactly when
the remote destroy raises an exception; when the destroy call returns,
the handler discards the acknowledgement and removes the local row either
way. -/
theorem C1_delete_outcome (destroy : String → Except String Ack) (media_id : Nat)
    (db : DB) (m : Media)
    (hnd : (db.medias.map Media.id).Nodup)
    (hfind : db.medias.find? (fun x => x.id == media_id) = some m) :
    (∀ e, destroy m.public_id = .error e →
        delete destroy media_id db
          = { db := db, response := .serverError,
              events := [Event.destroyRemote m.public_id] }) ∧
    (∀ a, destroy m.public_id = .ok a →
        (delete destroy media_id db).db.medias.find? (fun x => x.id == media_id) = none ∧
        (delete destroy media_id db).db.medias
            = db.medias.eraseP (fun x => x.id == media_id) ∧
        (delete destroy media_id db).response = .redirect "manage" ∧
        (delete destroy media_id db).flashes = ["Deleted successfully"]) := by
  constructor
  · intro e he
    simp [delete, hfind, he]
  · intro a ha
    refine ⟨?_, by simp [delete, hfind, ha], by simp [delete, hfind, ha],
      by simp [delete, hfind, ha]⟩
    simp only [delete, hfind, ha]
    have hle := filter_beq_length_le_one Media.id media_id db.medias hnd
    rw [List.find?_eq_none]
    intro x hx hpx
    have hf2 : (db.medias.eraseP (fun x => x.id == media_id)).filter
        (fun x => x.id == media_id) = [] := by
      rw [filter_eraseP]
      exact tail_eq_nil_of_length_le_one _ hle
    have hxin : x ∈ (db.medias.eraseP (fun x => x.id == media_id)).filter
        (fun x => x.id == media_id) := List.mem_filter.mpr ⟨hx, hpx⟩
    rw [hf2] at hxin
    exact absurd hxin (List.not_mem_nil x)

/-- C1 witness: concrete instances of the abort branch and of the
row-removed-despite-err-acknowledgement branch. -/
theorem C1_delete_outcome_witness :
    delete (fun _ => .error "boom") 1 exDB
        = { db := exDB, response := .serverError,
            events := [Event.destroyRemote "pid1"] } ∧
    (delete destroyAckErr 1 exDB).db.medias.find? (fun x => x.id == 1) = none :=
  ⟨(C1_delete_outcome (fun _ => .error "boom") 1 exDB exMedia1
      (by decide) (by decide)).1 "boom" rfl,
   ((C1_delete_outcome destroyAckErr 1 exDB exMedia1
      (by decide) (by decide)).2 .err rfl).1⟩

end MediaApp
